import Mathlib

/-!
Verification development for the tdl-forward-bulk repository.

The definitions below are a shallow embedding of the queue/dedup/persistence
core of `src/tdl-forward-bot.py` (and, where noted, of the legacy worker
`src/py-tdl-forward.py`).  Strings are modelled as Lean `String`s; the regular
expressions used by the Python code are embedded as explicit character-list
scanners with the exact semantics of the Python `re` calls (leftmost,
non-overlapping matches, greedy quantifiers, no rescanning of replaced text,
`$` matching at the end of the string or just before a final newline).
Recursive scanners that consume more than one character per step use a fuel
argument equal to the length of the input, which is always sufficient because
every step consumes at least one character.
-/

/-- Python `\s` character class (ASCII part, which is all that the inputs use). -/
def pySpace (c : Char) : Bool :=
  c == ' ' || c == '\t' || c == '\n' || c == '\r' || c == '\x0b' || c == '\x0c'

/-- Boolean test that `p` begins the list `l` (Python `str.startswith`). -/
def startsL : List Char → List Char → Bool
  | _, [] => true
  | [], _ :: _ => false
  | c :: cs, p :: ps => c == p && startsL cs ps

/-- Boolean test that `n` occurs somewhere inside `l` (Python `in` on strings). -/
def containsL : List Char → List Char → Bool
  | [], ns => ns.isEmpty
  | c :: cs, ns => startsL (c :: cs) ns || containsL cs ns

/-- Python substring test `needle in hay`. -/
def strContains (hay needle : String) : Bool :=
  containsL hay.toList needle.toList

/-- Left strip: drop leading Python whitespace. -/
def stripL (l : List Char) : List Char := l.dropWhile pySpace

/-- Right strip: drop trailing Python whitespace. -/
def stripR (l : List Char) : List Char := (l.reverse.dropWhile pySpace).reverse

/-- Python `str.strip()`. -/
def pyStrip (l : List Char) : List Char := stripR (stripL l)

/-- The separator `" - "` used by `normalize_url` and `parse_url_range`. -/
def sepL : List Char := [' ', '-', ' ']

/-- `url.split(" - ")[0]`: the part of the list before the first occurrence of
the separator (the whole list if the separator does not occur). -/
def takeUntilSep : List Char → List Char
  | [] => []
  | c :: cs => if startsL (c :: cs) sepL then [] else c :: takeUntilSep cs

/-- The literal pattern `?single`. -/
def singlePat : List Char := ['?', 's', 'i', 'n', 'g', 'l', 'e']

/-- After a `?single` match, the optional group `(?:=[^&]*)?` of the Python
regex consumes a `=` and then greedily every following character other than
`&`. -/
def dropEqArg : List Char → List Char
  | '=' :: t => t.dropWhile (fun c => !(c == '&'))
  | t => t

/-- Fuelled scanner for `re.sub(r"\?single(?:=[^&]*)?", "", base)`:
leftmost non-overlapping matches, no rescanning of the output. -/
def removeSingleF : Nat → List Char → List Char
  | 0, l => l
  | _ + 1, [] => []
  | fuel + 1, c :: cs =>
    if startsL (c :: cs) singlePat then
      removeSingleF fuel (dropEqArg ((c :: cs).drop 7))
    else
      c :: removeSingleF fuel cs

/-- `re.sub(r"\?single(?:=[^&]*)?", "", base)` from `normalize_url`
(`src/tdl-forward-bot.py` line 192). -/
def removeSingle (l : List Char) : List Char := removeSingleF l.length l

/-- The character class `[?&]`. -/
def isQA (c : Char) : Bool := c == '?' || c == '&'

/-- Fuelled scanner for `re.sub(r"[?&]{2,}", "?", base)`: a maximal run of at
least two `?`/`&` characters is replaced by a single `?`. -/
def collapseQAF : Nat → List Char → List Char
  | 0, l => l
  | _ + 1, [] => []
  | _ + 1, [c] => [c]
  | fuel + 1, a :: b :: t =>
    if isQA a && isQA b then
      '?' :: collapseQAF fuel (t.dropWhile isQA)
    else
      a :: collapseQAF fuel (b :: t)

/-- `re.sub(r"[?&]{2,}", "?", base)` from `normalize_url`
(`src/tdl-forward-bot.py` line 194). -/
def collapseQA (l : List Char) : List Char := collapseQAF l.length l

/-- `re.sub(r"[?&]$", "", base)` from `normalize_url`
(`src/tdl-forward-bot.py` line 195).  In Python `$` matches at the end of the
string or just before a newline at the end of the string, so a `?`/`&` in
either position is removed (at most one match is possible). -/
def stripTrailQA (l : List Char) : List Char :=
  match l.reverse with
  | [] => l
  | c :: rest =>
    if isQA c then rest.reverse
    else if c == '\n' then
      match rest with
      | [] => l
      | d :: rest2 => if isQA d then rest2.reverse ++ ['\n'] else l
    else l

/-- `normalize_url` from `src/tdl-forward-bot.py` lines 183–196: empty input is
returned unchanged; otherwise the part before the first `" - "` is stripped of
surrounding whitespace, `?single` markers (with optional `=value`) are removed,
runs of two or more `?`/`&` collapse to `?`, and a trailing `?`/`&` is
removed. -/
def normalize_url (url : String) : String :=
  if url = "" then url
  else ⟨stripTrailQA (collapseQA (removeSingle (pyStrip (takeUntilSep url.toList))))⟩

/-- Fuelled scanner for `re.sub(r'\s*-\s*', ' - ', text)` in `parse_url_range`
(`src/tdl-forward-bot.py` line 211): at each position a match is attempted,
consuming optional whitespace, one `-`, and optional whitespace; matches are
replaced by `" - "` and scanning resumes after the match. -/
def normSepF : Nat → List Char → List Char
  | 0, l => l
  | _ + 1, [] => []
  | fuel + 1, c :: cs =>
    match (c :: cs).dropWhile pySpace with
    | '-' :: r => ' ' :: '-' :: ' ' :: normSepF fuel (r.dropWhile pySpace)
    | _ => c :: normSepF fuel cs

/-- `re.sub(r'\s*-\s*', ' - ', text)`. -/
def normSep (l : List Char) : List Char := normSepF l.length l

/-- Fuelled `text.split(" - ")` (Python `str.split` with a literal separator:
leftmost non-overlapping occurrences). -/
def splitSepF : Nat → List Char → List Char → List (List Char)
  | 0, acc, l => [acc.reverse ++ l]
  | _ + 1, acc, [] => [acc.reverse]
  | fuel + 1, acc, c :: cs =>
    if startsL (c :: cs) sepL then
      acc.reverse :: splitSepF fuel [] ((c :: cs).drop 3)
    else
      splitSepF fuel (c :: acc) cs

/-- `text.split(" - ")`. -/
def splitSep (l : List Char) : List (List Char) := splitSepF l.length [] l

/-- Value of a run of decimal digits (Python `int` on the regex group). -/
def digitsToNat (ds : List Char) : Nat :=
  ds.foldl (fun n c => n * 10 + (c.toNat - '0'.toNat)) 0

/-- All characters other than a possible final newline differ from newline
(the shape `.*` followed by Python `$` can match). -/
def noInternalNl : List Char → Bool
  | [] => true
  | ['\n'] => true
  | c :: t => !(c == '\n') && noInternalNl t

/-- What may legally follow the digit run in the regex
`/(\d+)(?:[?#].*)?$`: nothing, a final newline (Python `$`), or `?`/`#`
followed by a `.*` tail. -/
def tailOk : List Char → Bool
  | [] => true
  | ['\n'] => true
  | c :: t => (c == '?' || c == '#') && noInternalNl t

/-- `re.search(r'/(\d+)(?:[?#].*)?$', url)` from `parse_url_range`
(`src/tdl-forward-bot.py` lines 231–232): returns the characters before the
matched `/` together with the numeric value of the digit group, for the
leftmost position where the whole anchored pattern matches. -/
def findMsgId : List Char → Option (List Char × Nat)
  | [] => none
  | c :: cs =>
    if c == '/' then
      let ds := cs.takeWhile Char.isDigit
      let rest := cs.dropWhile Char.isDigit
      if !ds.isEmpty && tailOk rest then
        some ([], digitsToNat ds)
      else
        (findMsgId cs).map (fun pn => (c :: pn.1, pn.2))
    else
      (findMsgId cs).map (fun pn => (c :: pn.1, pn.2))

/-- `parse_url_range` from `src/tdl-forward-bot.py` lines 199–257: whitespace
around hyphens is normalized to `" - "`, the text must split into exactly two
Telegram URLs, both must end in a numeric message id, the range must be
ascending and span at most 1000 ids, and the result is the list of URLs with
the common base and each id in the inclusive range. -/
def parse_url_range (text : String) : Option (List String) :=
  let t := normSep text.toList
  if !containsL t sepL then none
  else
    match splitSep t with
    | [p1, p2] =>
      let start_url := pyStrip p1
      let end_url := pyStrip p2
      if !(containsL start_url "t.me/".toList || containsL start_url "telegram.me/".toList) then
        none
      else if !(containsL end_url "t.me/".toList || containsL end_url "telegram.me/".toList) then
        none
      else
        match findMsgId start_url, findMsgId end_url with
        | some pn, some qn =>
          if pn.2 > qn.2 then none
          else if qn.2 - pn.2 + 1 > 1000 then none
          else
            some ((List.range' pn.2 (qn.2 - pn.2 + 1)).map
              (fun i => String.mk (pn.1 ++ ['/']) ++ toString i))
        | _, _ => none
    | _ => none

/-!
State model of `src/tdl-forward-bot.py`.

`BotState` collects the mutable state the claims are about: the in-memory
`asyncio.Queue` contents and the `queue_links` list (both hold the URL field of
the job tuples; user/chat/message fields are irrelevant to the claims), the
three durable partitions `queue.txt`, `processing.txt`, `finished.txt`, the
`failed.txt` log (modelled as the list of logged URLs; the GMT+7 timestamp of
`append_failed` is not modelled), and the Redis accelerator (availability flag
plus set contents; a Redis exception path behaves like unavailability).
Handlers run on one asyncio event loop and the modelled mutation sequences
contain no suspension point (`await queue.put` on an unbounded queue does not
yield), so each operation below is one atomic step of the real system.
-/

structure BotState where
  queue : List String
  queueLinks : List String
  queueFile : List String
  processingFile : List String
  finishedFile : List String
  failedFile : List String
  redisAvailable : Bool
  redisSet : List String
deriving DecidableEq

/-- The state of a fresh installation: empty stores, Redis down. -/
def initState : BotState :=
  { queue := [], queueLinks := [], queueFile := [], processingFile := [],
    finishedFile := [], failedFile := [], redisAvailable := false, redisSet := [] }

/-- Which partition a duplicate was found in. -/
inductive DupStatus where
  | finished
  | processing
  | queued
deriving DecidableEq

/-- The file-based branch of `is_url_processed_anywhere`
(`src/tdl-forward-bot.py` lines 272–289): check `finished.txt`, then
`processing.txt`, then `queue.txt`. -/
def fallbackCheck (s : BotState) (n : String) : Option DupStatus :=
  if n ∈ s.finishedFile then some .finished
  else if n ∈ s.processingFile then some .processing
  else if n ∈ s.queueFile then some .queued
  else none

/-- `is_url_processed_anywhere` (`src/tdl-forward-bot.py` lines 260–289): the
argument is normalized, Redis is consulted first when available (a positive
answer short-circuits as `finished`), and otherwise the file-based check
runs. -/
def isUrlProcessedAnywhere (s : BotState) (url : String) : Option DupStatus :=
  let n := normalize_url url
  if s.redisAvailable && n ∈ s.redisSet then some .finished
  else fallbackCheck s n

/-- `mark_url_processed` (`src/tdl-forward-bot.py` lines 292–306): normalize,
add to the Redis set when available, append to `finished.txt` and clear
`processing.txt`. -/
def markUrlProcessed (s : BotState) (url : String) : BotState :=
  let n := normalize_url url
  { s with
    redisSet := if s.redisAvailable && n ∉ s.redisSet then s.redisSet ++ [n] else s.redisSet,
    finishedFile := s.finishedFile ++ [n],
    processingFile := [] }

/-- `append_failed` (`src/tdl-forward-bot.py` lines 52–62): the normalized URL
is appended to `failed.txt` (the timestamp is not modelled). -/
def appendFailed (s : BotState) (url : String) : BotState :=
  { s with failedFile := s.failedFile ++ [normalize_url url] }

/-- `delete_link_finished_command` (`src/tdl-forward-bot.py` lines 995–1013):
the normalized argument is removed from `finished.txt` when present; the Redis
set is not touched.  Returns the state and whether a removal happened. -/
def deleteLinkFinished (s : BotState) (arg : String) : BotState × Bool :=
  let n := normalize_url arg
  if n ∈ s.finishedFile then
    ({ s with finishedFile := s.finishedFile.filter (fun u => u ≠ n) }, true)
  else
    (s, false)

/-- `remove_command` (`src/tdl-forward-bot.py` lines 936–953): the argument is
compared verbatim against the lines of `queue.txt` and removed from that file
only; the in-memory `queue` and `queue_links` are not touched.  Returns the
state and whether a removal happened. -/
def removeCommand (s : BotState) (arg : String) : BotState × Bool :=
  if arg ∈ s.queueFile then
    ({ s with queueFile := s.queueFile.filter (fun u => u ≠ arg) }, true)
  else
    (s, false)

/-- Remove the first occurrence of `u` from a list (`queue_worker` lines
476–479). -/
def removeFirst : List String → String → List String
  | [], _ => []
  | x :: xs, u => if x = u then xs else x :: removeFirst xs u

/-- The dequeue step of `queue_worker` (`src/tdl-forward-bot.py` lines
463–489), up to the `process_link` call: take the queue head, remove its first
occurrence from `queue_links`, write `processing.txt` (unless its first line
already equals the re-normalized URL), and delete every line of `queue.txt`
equal to the re-normalized URL.  Returns `none` when the queue is empty (the
real worker suspends). -/
def dequeueStep (s : BotState) : Option (String × BotState) :=
  match s.queue with
  | [] => none
  | url :: rest =>
    let n := normalize_url url
    some (url,
      { s with
        queue := rest,
        queueLinks := removeFirst s.queueLinks url,
        processingFile :=
          if s.processingFile.head? = some n then s.processingFile else [n],
        queueFile := s.queueFile.filter (fun u => u ≠ n) })

/-- `load_persistent_state` (`src/tdl-forward-bot.py` lines 318–335) given the
contents of `processing.txt` and `queue.txt` (and of `finished.txt` for the
Redis sync): the first `processing.txt` line, normalized, is enqueued first,
then every `queue.txt` line in stored order; the files themselves are not
rewritten. -/
def load_persistent_state (processing queueF finished : List String)
    (redisAvailable : Bool) (redisSet : List String) : BotState :=
  let recovered :=
    (match processing with
     | [] => []
     | p :: _ => [normalize_url p]) ++ queueF.map normalize_url
  { queue := recovered,
    queueLinks := recovered,
    queueFile := queueF,
    processingFile := processing,
    finishedFile := finished,
    failedFile := [],
    redisAvailable := redisAvailable,
    redisSet :=
      if redisAvailable then
        finished.foldl
          (fun acc u =>
            if normalize_url u ∈ acc then acc else acc ++ [normalize_url u])
          redisSet
      else redisSet }

/-- A bulk-batch record of `bulk_batches` (`src/tdl-forward-bot.py` line 315
and lines 394–407).  `chatValid` models the truthiness test
`batch_info['chat_id'] and batch_info['chat_id'] != ''` used before sending the
summary; the chat and message ids themselves carry no further information used
by the claims. -/
structure Batch where
  chatValid : Bool
  total : Nat
  completed : Nat
  failed : Nat
deriving DecidableEq

/-- Append a job to the in-memory queue, `queue_links`, and `queue.txt`
(`handle_message` lines 419–424).  All three happen in one event-loop step:
there is no suspension point between them. -/
def enqueue (s : BotState) (n : String) : BotState :=
  { s with
    queue := s.queue ++ [n],
    queueLinks := s.queueLinks ++ [n],
    queueFile := s.queueFile ++ [n] }

/-- One iteration of the per-URL loop of `handle_message` (lines 409–428): the
URL is normalized, checked for duplicates (the check normalizes its argument
again), and on acceptance enqueued with the batch total incremented.  Returns
the new state, the new batch record, and whether the URL was added. -/
def enqueueOne (s : BotState) (b : Option Batch) (url : String) :
    BotState × Option Batch × Bool :=
  let n := normalize_url url
  if (isUrlProcessedAnywhere s n).isSome then
    (s, b, false)
  else
    (enqueue s n, b.map (fun bb => { bb with total := bb.total + 1 }), true)

/-- Result of the URL-processing part of `handle_message`. -/
structure HandleRes where
  state : BotState
  batch : Option Batch
  added : Nat
  dups : Nat
deriving DecidableEq

/-- The per-URL loop of `handle_message` over the whole list of submitted
URLs. -/
def handleUrlsAux : BotState → Option Batch → List String → HandleRes
  | s, b, [] => { state := s, batch := b, added := 0, dups := 0 }
  | s, b, u :: rest =>
    let e := enqueueOne s b u
    let r := handleUrlsAux e.1 e.2.1 rest
    { r with
      added := (if e.2.2 then 1 else 0) + r.added,
      dups := (if e.2.2 then 0 else 1) + r.dups }

/-- The queueing part of `handle_message` (`src/tdl-forward-bot.py` lines
394–435) applied to the already-parsed list `urls` of submitted URLs: a batch
record (with `total = 0`) is created exactly when more than one URL was
parsed, each URL is dedup-checked and enqueued, and a batch to which nothing
was added (all URLs duplicates) is deleted again before the handler returns. -/
def handle_message (s : BotState) (chatValid : Bool) (urls : List String) :
    HandleRes :=
  let b0 : Option Batch :=
    if urls.length > 1 then some ⟨chatValid, 0, 0, 0⟩ else none
  let r := handleUrlsAux s b0 urls
  if r.added = 0 ∧ r.dups > 0 then { r with batch := none } else r

/-- `error_occurred` of `process_link` (`src/tdl-forward-bot.py` lines
517–527): some output line contains the substring `Error`. -/
def errorOccurred (output : List String) : Bool :=
  output.any (fun l => strContains l "Error")

/-- The success test of `process_link` (`src/tdl-forward-bot.py` line 623):
exit code zero and no output line containing `Error`.  This is the only
classification the bot applies to the tool output. -/
def tdlSuccess (rc : Int) (output : List String) : Bool :=
  rc = 0 && !errorOccurred output

/-- `recordOutcome`: the batch bookkeeping done by `process_link` for a batch
job (lines 629–657 on success, 682–709 on failure): the completed or failed
counter is incremented; when `completed + failed >= total` the summary
`(completed, failed, total)` is produced and the batch record deleted. -/
def recordOutcome (b : Batch) (success : Bool) :
    Option Batch × Option (Nat × Nat × Nat) :=
  let b' :=
    if success then { b with completed := b.completed + 1 }
    else { b with failed := b.failed + 1 }
  if b'.completed + b'.failed ≥ b'.total then
    (none, some (b'.completed, b'.failed, b'.total))
  else
    (some b', none)

/-- Observable outcome of one `process_link` run. -/
structure LinkResult where
  state : BotState
  batch : Option Batch
  summaryAttempted : Option (Nat × Nat × Nat)
  summaryDelivered : Option (Nat × Nat × Nat)
  notified : Bool
  markedDone : Bool
  failedLogged : Bool
deriving DecidableEq

/-- The terminal phase of `process_link` (`src/tdl-forward-bot.py` lines
614–720) after the subprocess finished with exit code `rc` and output lines
`output` (progress-snapshot parsing only feeds the `/status` display and is not
modelled).  `batch` is the job's `bulk_batches` record, `chatValid` the
truthiness of the job's own `chat_id`, and `sendOk` whether a Telegram send
succeeds (raises otherwise).  On success: a batch job updates the batch (the
summary send is inside `try`), a single job sends its notification inside
`try` and returns early — without marking — when the send raises, while an
empty `chat_id` only logs; every path that falls through calls
`mark_url_processed`.  On failure: batch bookkeeping as above, a single-job
failure notification is NOT wrapped in `try`, so a raising send skips the
`append_failed` call; otherwise the URL is appended to `failed.txt`. -/
def process_link (s : BotState) (url : String) (rc : Int) (output : List String)
    (batch : Option Batch) (chatValid sendOk : Bool) : LinkResult :=
  if tdlSuccess rc output then
    match batch with
    | some b =>
      { state := markUrlProcessed s url,
        batch := (recordOutcome b true).1,
        summaryAttempted := if b.chatValid then (recordOutcome b true).2 else none,
        summaryDelivered := if b.chatValid && sendOk then (recordOutcome b true).2 else none,
        notified := false,
        markedDone := true,
        failedLogged := false }
    | none =>
      if chatValid then
        if sendOk then
          { state := markUrlProcessed s url, batch := none,
            summaryAttempted := none, summaryDelivered := none,
            notified := true, markedDone := true, failedLogged := false }
        else
          { state := s, batch := none,
            summaryAttempted := none, summaryDelivered := none,
            notified := false, markedDone := false, failedLogged := false }
      else
        { state := markUrlProcessed s url, batch := none,
          summaryAttempted := none, summaryDelivered := none,
          notified := false, markedDone := true, failedLogged := false }
  else
    match batch with
    | some b =>
      { state := appendFailed s url,
        batch := (recordOutcome b false).1,
        summaryAttempted := if b.chatValid then (recordOutcome b false).2 else none,
        summaryDelivered := if b.chatValid && sendOk then (recordOutcome b false).2 else none,
        notified := false,
        markedDone := false,
        failedLogged := true }
    | none =>
      if chatValid && !sendOk then
        { state := s, batch := none,
          summaryAttempted := none, summaryDelivered := none,
          notified := false, markedDone := false, failedLogged := false }
      else
        { state := appendFailed s url, batch := none,
          summaryAttempted := none, summaryDelivered := none,
          notified := chatValid, markedDone := false, failedLogged := true }

/-- Run the batch bookkeeping of a sequence of terminal outcomes (one per
batch member, in completion order), collecting every summary produced. -/
def runOutcomes : Batch → List Bool → Option Batch × List (Nat × Nat × Nat)
  | b, [] => (some b, [])
  | b, o :: os =>
    match recordOutcome b o with
    | (some b', m) =>
      match runOutcomes b' os with
      | (r, ms) => (r, m.toList ++ ms)
    | (none, m) => (none, m.toList)

/-- Classification outcome of the legacy worker `process_url`. -/
inductive UrlClass where
  | dup
  | invalid
  | deleted
  | ok
  | err
deriving DecidableEq

/-- Observable outcome of one `process_url` run of the legacy worker. -/
structure UrlResult where
  cls : UrlClass
  appendedDone : Bool
  appendedInvalid : Bool
  appendedDeleted : Bool
  appendedDup : Bool
  removedFromQueue : Bool
deriving DecidableEq

/-- `process_url` from the legacy worker `src/py-tdl-forward.py` lines 93–178:
an already-processed URL is logged to `duplicate-url.txt`; otherwise the output
lines set sticky flags for `Error`, `may be deleted`, `invalid message`,
`CHAT_ID_INVALID` and `USERNAME_INVALID`; invalid markers win over the deleted
marker, which wins over the exit-code/`Error` success test; only a success
appends to `done-url.txt`; every branch but the generic error removes the URL
from the input queue. -/
def process_url (alreadyProcessed : Bool) (rc : Int) (output : List String) :
    UrlResult :=
  if alreadyProcessed then
    { cls := .dup, appendedDone := false, appendedInvalid := false,
      appendedDeleted := false, appendedDup := true, removedFromQueue := true }
  else
    let error_occurred := output.any (fun l => strContains l "Error")
    let deleted := output.any (fun l => strContains l "may be deleted")
    let invalid := output.any (fun l => strContains l "invalid message")
    let chatInv := output.any (fun l => strContains l "CHAT_ID_INVALID")
    let userInv := output.any (fun l => strContains l "USERNAME_INVALID")
    if invalid || chatInv || userInv then
      { cls := .invalid, appendedDone := false, appendedInvalid := true,
        appendedDeleted := false, appendedDup := false, removedFromQueue := true }
    else if deleted then
      { cls := .deleted, appendedDone := false, appendedInvalid := false,
        appendedDeleted := true, appendedDup := false, removedFromQueue := true }
    else if rc = 0 && !error_occurred then
      { cls := .ok, appendedDone := true, appendedInvalid := false,
        appendedDeleted := false, appendedDup := false, removedFromQueue := true }
    else
      { cls := .err, appendedDone := false, appendedInvalid := false,
        appendedDeleted := false, appendedDup := false, removedFromQueue := false }

/-- Claim C8: the Range Expander expands
`https://t.me/c/100/5 - https://t.me/c/100/8` to exactly the four identifiers
ending in 5, 6, 7, 8 in ascending order; the descending pair returns null; a
range spanning 1001 items returns null. -/
theorem c8_thm :
    parse_url_range "https://t.me/c/100/5 - https://t.me/c/100/8" =
      some ["https://t.me/c/100/5", "https://t.me/c/100/6",
            "https://t.me/c/100/7", "https://t.me/c/100/8"] ∧
    parse_url_range "https://t.me/c/100/8 - https://t.me/c/100/5" = none ∧
    parse_url_range "https://t.me/c/100/1 - https://t.me/c/100/1001" = none := by
  refine ⟨by decide, by decide, by decide⟩

/-- Claim C10: `parse_url_range` rewrites every optional-whitespace, hyphen,
optional-whitespace occurrence to `" - "` before splitting, so two Telegram
URLs joined by a bare `-` with no spaces are still expanded as a range. -/
theorem c10_thm :
    normSep "https://t.me/c/100/5-https://t.me/c/100/8".toList =
      "https://t.me/c/100/5 - https://t.me/c/100/8".toList ∧
    parse_url_range "https://t.me/c/100/5-https://t.me/c/100/8" =
      some ["https://t.me/c/100/5", "https://t.me/c/100/6",
            "https://t.me/c/100/7", "https://t.me/c/100/8"] := by
  refine ⟨by decide, by decide⟩

/-- Counterexample to claim C3 as stated: from the reachable state obtained by
accepting `https://t.me/c/9/9`, the `/remove` command removes the identifier
from `queue.txt` (returning success), yet the next worker dequeue still yields
exactly this job — it is dequeued and processed despite the removal. -/
theorem c3_cex :
    ((removeCommand (enqueueOne initState none "https://t.me/c/9/9").1
        "https://t.me/c/9/9").2 = true) ∧
    ((removeCommand (enqueueOne initState none "https://t.me/c/9/9").1
        "https://t.me/c/9/9").1.queueFile = []) ∧
    ((dequeueStep (removeCommand (enqueueOne initState none "https://t.me/c/9/9").1
        "https://t.me/c/9/9").1).map Prod.fst = some "https://t.me/c/9/9") := by
  refine ⟨by decide, by decide, by decide⟩

/-- Claim C3, amended: `remove_command` removes a verbatim-matching identifier
from the `queued` durable store immediately and completely, but it does not
touch the in-memory queue structures, so the worker will still dequeue and
process the job. -/
theorem c3_thm (s : BotState) (r : String) (h : r ∈ s.queueFile) :
    (removeCommand s r).2 = true ∧
    r ∉ (removeCommand s r).1.queueFile ∧
    (removeCommand s r).1.queue = s.queue ∧
    (removeCommand s r).1.queueLinks = s.queueLinks := by
  simp [removeCommand, h, List.mem_filter]

/-- Witness for `c3_thm` at a concrete state. -/
theorem c3_wit :
    (removeCommand (enqueueOne initState none "https://t.me/c/9/9").1
        "https://t.me/c/9/9").2 = true ∧
    "https://t.me/c/9/9" ∉ (removeCommand (enqueueOne initState none "https://t.me/c/9/9").1
        "https://t.me/c/9/9").1.queueFile ∧
    (removeCommand (enqueueOne initState none "https://t.me/c/9/9").1
        "https://t.me/c/9/9").1.queue = (enqueueOne initState none "https://t.me/c/9/9").1.queue ∧
    (removeCommand (enqueueOne initState none "https://t.me/c/9/9").1
        "https://t.me/c/9/9").1.queueLinks = (enqueueOne initState none "https://t.me/c/9/9").1.queueLinks :=
  c3_thm (enqueueOne initState none "https://t.me/c/9/9").1 "https://t.me/c/9/9" (by decide)

/-- Counterexample to claim C4 as stated: mark an identifier processed while
Redis is available, then administratively delete it from the `done` partition;
the Redis path of `is_url_processed_anywhere` still answers `finished` while
the fallback scan answers that the identifier is unknown, so the two paths
disagree and the accelerator is authoritative for the answer. -/
theorem c4_cex :
    (isUrlProcessedAnywhere
       (deleteLinkFinished (markUrlProcessed { initState with redisAvailable := true }
          "https://t.me/c/1/2") "https://t.me/c/1/2").1
       "https://t.me/c/1/2" = some .finished) ∧
    (fallbackCheck
       (deleteLinkFinished (markUrlProcessed { initState with redisAvailable := true }
          "https://t.me/c/1/2") "https://t.me/c/1/2").1
       (normalize_url "https://t.me/c/1/2") = none) := by
  refine ⟨by decide, by decide⟩

/-- Claim C4, amended: the Redis path and the fallback scan agree on every
input as long as every member of the Redis set is present in the `done`
partition — an invariant that startup sync and `mark_url_processed` preserve
but that `delete_link_finished_command` breaks, because it removes the entry
from `finished.txt` without removing it from Redis. -/
theorem c4_thm (s : BotState) (url : String)
    (h : ∀ x ∈ s.redisSet, x ∈ s.finishedFile) :
    isUrlProcessedAnywhere s url = fallbackCheck s (normalize_url url) := by
  unfold isUrlProcessedAnywhere
  by_cases hr : s.redisAvailable = true ∧ normalize_url url ∈ s.redisSet
  · have hf : normalize_url url ∈ s.finishedFile := h _ hr.2
    simp [hr.1, hr.2, fallbackCheck, hf]
  · rcases Bool.eq_false_or_eq_true s.redisAvailable with hb | hb
    · have : normalize_url url ∉ s.redisSet := fun hm => hr ⟨hb, hm⟩
      simp [hb, this]
    · simp [hb]

/-- Witness for `c4_thm`: the invariant holds right after `mark_url_processed`
on a fresh Redis-backed state. -/
theorem c4_wit :
    isUrlProcessedAnywhere
      (markUrlProcessed { initState with redisAvailable := true } "https://t.me/c/1/2")
      "https://t.me/c/1/2" =
    fallbackCheck
      (markUrlProcessed { initState with redisAvailable := true } "https://t.me/c/1/2")
      (normalize_url "https://t.me/c/1/2") :=
  c4_thm (markUrlProcessed { initState with redisAvailable := true } "https://t.me/c/1/2")
    "https://t.me/c/1/2" (by decide)

/-- Claim C7: on startup with a non-empty in-flight store, the Recovery Loader
enqueues the interrupted job first and then every queued entry in stored
order, that job is the first one the worker dequeues, and no persisted queue
entry is lost. -/
theorem c7_thm (processing queueF finished : List String) (ra : Bool)
    (rs : List String) (p : String) (rest : List String)
    (hp : processing = p :: rest) :
    (load_persistent_state processing queueF finished ra rs).queue =
      normalize_url p :: queueF.map normalize_url ∧
    (dequeueStep (load_persistent_state processing queueF finished ra rs)).map Prod.fst =
      some (normalize_url p) ∧
    ∀ q ∈ queueF,
      normalize_url q ∈ (load_persistent_state processing queueF finished ra rs).queue := by
  subst hp
  refine ⟨by rfl, by rfl, ?_⟩
  intro q hq
  exact List.mem_append_right _ (List.mem_map_of_mem _ hq)

/-- Witness for `c7_thm` at a concrete persisted state. -/
theorem c7_wit :
    (load_persistent_state ["https://t.me/c/1/7"] ["https://t.me/c/1/8"] [] false []).queue =
      normalize_url "https://t.me/c/1/7" :: ["https://t.me/c/1/8"].map normalize_url ∧
    (dequeueStep (load_persistent_state ["https://t.me/c/1/7"] ["https://t.me/c/1/8"] [] false [])).map Prod.fst =
      some (normalize_url "https://t.me/c/1/7") ∧
    ∀ q ∈ ["https://t.me/c/1/8"],
      normalize_url q ∈ (load_persistent_state ["https://t.me/c/1/7"] ["https://t.me/c/1/8"] [] false []).queue :=
  c7_thm ["https://t.me/c/1/7"] ["https://t.me/c/1/8"] [] false [] "https://t.me/c/1/7" [] rfl

/-- Counterexample to claim C1 as stated: a worker run that exits 0 and whose
only output line is `invalid message` (which contains no `Error` substring) is
treated as a success by `process_link` — the job is marked done (appended to
the `done` partition) and is not appended to the failed log. -/
theorem c1_cex :
    tdlSuccess 0 ["invalid message"] = true ∧
    (process_link initState "https://t.me/c/1/2" 0 ["invalid message"] none true true).markedDone = true ∧
    (process_link initState "https://t.me/c/1/2" 0 ["invalid message"] none true true).failedLogged = false ∧
    normalize_url "https://t.me/c/1/2" ∈
      (process_link initState "https://t.me/c/1/2" 0 ["invalid message"] none true true).state.finishedFile := by
  refine ⟨by decide, by decide, by decide, by decide⟩

/-- Claim C1, amended: the Single-Flight Worker of the bot classifies a run by
exit code and the `Error` substring only, so a run that exits 0 with no
`Error` line is treated as success — marked done and not logged to failed —
regardless of an `invalid message` line.  The `invalid message`
classification exists only in the legacy worker `process_url`
(`src/py-tdl-forward.py`), where such a run is classified invalid, appended to
the invalid log, and never appended to done. -/
theorem c1_thm (s : BotState) (url : String) (rc : Int) (output : List String)
    (h0 : rc = 0) (hne : errorOccurred output = false) :
    tdlSuccess rc output = true ∧
    (process_link s url rc output none true true).markedDone = true ∧
    (process_link s url rc output none true true).failedLogged = false ∧
    ((∃ l ∈ output, strContains l "invalid message" = true) →
      (process_url false rc output).cls = .invalid ∧
      (process_url false rc output).appendedInvalid = true ∧
      (process_url false rc output).appendedDone = false) := by
  have hs : tdlSuccess rc output = true := by simp [tdlSuccess, h0, hne]
  refine ⟨hs, by simp [process_link, hs], by simp [process_link, hs], ?_⟩
  rintro ⟨l, hl, hinv⟩
  have ha : output.any (fun l => strContains l "invalid message") = true :=
    List.any_eq_true.mpr ⟨l, hl, hinv⟩
  simp [process_url, ha]

/-- Witness for `c1_thm` at the run of `c1_cex`. -/
theorem c1_wit :
    tdlSuccess 0 ["invalid message"] = true ∧
    (process_link initState "u" 0 ["invalid message"] none true true).markedDone = true ∧
    (process_link initState "u" 0 ["invalid message"] none true true).failedLogged = false ∧
    ((∃ l ∈ ["invalid message"], strContains l "invalid message" = true) →
      (process_url false 0 ["invalid message"]).cls = .invalid ∧
      (process_url false 0 ["invalid message"]).appendedInvalid = true ∧
      (process_url false 0 ["invalid message"]).appendedDone = false) :=
  c1_thm initState "u" 0 ["invalid message"] rfl (by decide)

/-- Counterexample to claim C2 as stated: the submission `a?&single` is
accepted and its normalized identifier `a?single` is written to the queue and
to `queue.txt`; but the worker dequeue removes from `queue.txt` the lines
equal to the re-normalized identifier `normalize_url "a?single" = "a"`, so
after the dequeue the identifier is still present in the queued durable
store. -/
theorem c2_cex :
    (enqueueOne initState none "a?&single").1.queue = ["a?single"] ∧
    (enqueueOne initState none "a?&single").1.queueFile = ["a?single"] ∧
    (dequeueStep (enqueueOne initState none "a?&single").1).map Prod.fst =
      some "a?single" ∧
    (dequeueStep (enqueueOne initState none "a?&single").1).map
      (fun p => p.2.queueFile) = some ["a?single"] := by
  refine ⟨by decide, by decide, by decide, by decide⟩

/-- Claim C2, amended: an accepted submission writes the normalized identifier
to the in-memory queue and to the queued durable store in the same atomic
event-loop step (there is no suspension point between `queue.put` and the
file append, so the worker cannot observe the gap); a worker dequeue removes
the job from the in-memory structures, and removes the identifier from the
queued durable store exactly when the identifier is a fixed point of
`normalize_url` — the file lines removed are those equal to the re-normalized
identifier, so a non-fixed-point identifier survives its own dequeue in
`queue.txt`. -/
theorem c2_thm :
    (∀ s url, isUrlProcessedAnywhere s (normalize_url url) = none →
        normalize_url url ∈ (enqueueOne s none url).1.queue ∧
        normalize_url url ∈ (enqueueOne s none url).1.queueFile) ∧
    (∀ s u rest, s.queue = u :: rest →
        ∃ s2, dequeueStep s = some (u, s2) ∧ s2.queue = rest ∧
          s2.queueLinks = removeFirst s.queueLinks u ∧
          (normalize_url u = u → u ∉ s2.queueFile)) := by
  constructor
  · intro s url h
    simp [enqueueOne, h, enqueue]
  · intro s u rest hq
    have h2 : dequeueStep s = some (u, { s with queue := rest, queueLinks := removeFirst s.queueLinks u, processingFile := if s.processingFile.head? = some (normalize_url u) then s.processingFile else [normalize_url u], queueFile := s.queueFile.filter (fun x => x ≠ normalize_url u) }) := by simp [dequeueStep, hq]
    refine ⟨_, h2, rfl, rfl, ?_⟩
    intro hfix
    simp [List.mem_filter, hfix]

/-- Witness for `c2_thm`: the fixed-point identifier `https://t.me/c/3/4` is
enqueued into both structures and fully removed from both by its dequeue. -/
theorem c2_wit :
    (normalize_url "https://t.me/c/3/4" ∈ (enqueueOne initState none "https://t.me/c/3/4").1.queue ∧
     normalize_url "https://t.me/c/3/4" ∈ (enqueueOne initState none "https://t.me/c/3/4").1.queueFile) ∧
    (∃ s2, dequeueStep (enqueueOne initState none "https://t.me/c/3/4").1 =
        some ("https://t.me/c/3/4", s2) ∧
      s2.queue = [] ∧
      s2.queueLinks =
        removeFirst (enqueueOne initState none "https://t.me/c/3/4").1.queueLinks
          "https://t.me/c/3/4" ∧
      (normalize_url "https://t.me/c/3/4" = "https://t.me/c/3/4" →
        "https://t.me/c/3/4" ∉ s2.queueFile)) :=
  ⟨c2_thm.1 initState "https://t.me/c/3/4" (by decide),
   c2_thm.2 (enqueueOne initState none "https://t.me/c/3/4").1 "https://t.me/c/3/4" [] (by decide)⟩

/-- Counterexample to claim C5 as stated: a successful batch job whose summary
delivery fails is still marked done (its identifier is appended to the done
partition and the in-flight store is cleared). -/
theorem c5_cex :
    tdlSuccess 0 [] = true ∧
    (process_link initState "https://t.me/c/1/2" 0 [] (some ⟨true, 1, 0, 0⟩) true false).summaryDelivered = none ∧
    (process_link initState "https://t.me/c/1/2" 0 [] (some ⟨true, 1, 0, 0⟩) true false).markedDone = true ∧
    normalize_url "https://t.me/c/1/2" ∈
      (process_link initState "https://t.me/c/1/2" 0 [] (some ⟨true, 1, 0, 0⟩) true false).state.finishedFile := by
  refine ⟨by decide, by decide, by decide, by decide⟩

/-- Claim C5, amended: for a singly-submitted successful job with a valid chat
id, a failing success notification leaves the whole state unchanged — the job
is not marked done and remains in the in-flight store; for a batch-submitted
successful job, `mark_url_processed` runs unconditionally (the summary send is
wrapped in `try`), so the job is marked done and the in-flight store cleared
even when no notification could be delivered. -/
theorem c5_thm (s : BotState) (url : String) (rc : Int) (output : List String)
    (b : Batch) (chatValid sendOk : Bool)
    (hs : tdlSuccess rc output = true) :
    ((process_link s url rc output none true false).markedDone = false ∧
     (process_link s url rc output none true false).state = s) ∧
    ((process_link s url rc output (some b) chatValid sendOk).markedDone = true ∧
     (process_link s url rc output (some b) chatValid sendOk).state.processingFile = []) := by
  refine ⟨⟨?_, ?_⟩, ?_, ?_⟩ <;> simp [process_link, hs, markUrlProcessed]

/-- Witness for `c5_thm` at the run of `c5_cex`. -/
theorem c5_wit :
    ((process_link initState "u" 0 [] none true false).markedDone = false ∧
     (process_link initState "u" 0 [] none true false).state = initState) ∧
    ((process_link initState "u" 0 [] (some ⟨true, 1, 0, 0⟩) true false).markedDone = true ∧
     (process_link initState "u" 0 [] (some ⟨true, 1, 0, 0⟩) true false).state.processingFile = []) :=
  c5_thm initState "u" 0 [] ⟨true, 1, 0, 0⟩ true false (by decide)

/-- `enqueueOne` on a duplicate URL changes nothing. -/
theorem enqueueOne_dup {s : BotState} {u : String} (b : Option Batch)
    (h : (isUrlProcessedAnywhere s (normalize_url u)).isSome = true) :
    enqueueOne s b u = (s, b, false) := by
  simp [enqueueOne, h]

/-- `enqueueOne` on a fresh URL enqueues it and bumps the batch total. -/
theorem enqueueOne_new {s : BotState} {u : String} (b : Option Batch)
    (h : (isUrlProcessedAnywhere s (normalize_url u)).isSome = false) :
    enqueueOne s b u =
      (enqueue s (normalize_url u),
       b.map (fun bb => { bb with total := bb.total + 1 }), true) := by
  simp [enqueueOne, h]

/-- Without a batch record, the URL loop never creates one. -/
theorem handleUrlsAux_batch_none (urls : List String) :
    ∀ s, (handleUrlsAux s none urls).batch = none := by
  induction urls with
  | nil => intro s; rfl
  | cons u rest ih =>
    intro s
    by_cases h : (isUrlProcessedAnywhere s (normalize_url u)).isSome
    · simp only [handleUrlsAux, enqueueOne_dup none h]
      exact ih s
    · simp only [handleUrlsAux, enqueueOne_new none (by simpa using h)]
      simpa using ih (enqueue s (normalize_url u))

/-- The URL loop increments the batch total exactly once per accepted URL. -/
theorem handleUrlsAux_batch_some (urls : List String) :
    ∀ s c t x y, (handleUrlsAux s (some ⟨c, t, x, y⟩) urls).batch =
      some ⟨c, t + (handleUrlsAux s (some ⟨c, t, x, y⟩) urls).added, x, y⟩ := by
  induction urls with
  | nil => intro s c t x y; simp [handleUrlsAux]
  | cons u rest ih =>
    intro s c t x y
    by_cases h : (isUrlProcessedAnywhere s (normalize_url u)).isSome
    · simp only [handleUrlsAux, enqueueOne_dup (some ⟨c, t, x, y⟩) h]
      simp only [ih s c t x y]
      simp
    · simp [handleUrlsAux, enqueueOne_new (some ⟨c, t, x, y⟩) (by simpa using h),
        ih (enqueue s (normalize_url u)) c (t + 1) x y, Batch.mk.injEq]
      omega

/-- Every submitted URL is counted either as added or as a duplicate. -/
theorem handleUrlsAux_count (urls : List String) :
    ∀ s b, (handleUrlsAux s b urls).added + (handleUrlsAux s b urls).dups =
      urls.length := by
  induction urls with
  | nil => intro s b; rfl
  | cons u rest ih =>
    intro s b
    by_cases h : (isUrlProcessedAnywhere s (normalize_url u)).isSome
    · have hh := ih s b
      simp [handleUrlsAux, enqueueOne_dup b h]
      omega
    · have hh := ih (enqueue s (normalize_url u))
        (b.map (fun bb => { bb with total := bb.total + 1 }))
      simp [handleUrlsAux, enqueueOne_new b (by simpa using h)]
      omega

/-- A batch record surviving `handle_message` has `total` equal to the number
of URLs actually enqueued, and that number is at least 1. -/
theorem handleMessageBatchTotal (s : BotState) (cv : Bool) (urls : List String)
    (bb : Batch) (h : (handle_message s cv urls).batch = some bb) :
    bb.total = (handle_message s cv urls).added ∧
    1 ≤ (handle_message s cv urls).added := by
  by_cases hl : urls.length > 1
  · simp only [handle_message, if_pos hl] at h ⊢
    split at h
    · simp at h
    · next hcond =>
      rw [handleUrlsAux_batch_some urls s cv 0 0 0] at h
      have hc := handleUrlsAux_count urls s (some ⟨cv, 0, 0, 0⟩)
      have hbb : bb = ⟨cv, 0 + (handleUrlsAux s (some ⟨cv, 0, 0, 0⟩) urls).added, 0, 0⟩ := by
        exact (Option.some_inj.mp h).symm
      subst hbb
      rw [if_neg hcond]
      constructor
      · simp
      · omega
  · exfalso
    simp only [handle_message, if_neg hl] at h
    split at h
    · simp at h
    · rw [handleUrlsAux_batch_none urls s] at h
      simp at h

/-- A closing outcome produces the summary and deletes the batch. -/
theorem runOutcomes_cons_closed (b : Batch) (o : Bool) (os : List Bool)
    (m : Nat × Nat × Nat) (h : recordOutcome b o = (none, some m)) :
    runOutcomes b (o :: os) = (none, [m]) := by
  simp only [runOutcomes, h]
  simp

/-- A non-closing outcome produces no summary and continues. -/
theorem runOutcomes_cons_open (b : Batch) (o : Bool) (os : List Bool)
    (b' : Batch) (h : recordOutcome b o = (some b', none)) :
    runOutcomes b (o :: os) = runOutcomes b' os := by
  simp only [runOutcomes, h]
  simp

/-- Feeding a fresh batch exactly `total` outcomes produces exactly one
summary, carrying the success and failure counts and the total, and discards
the batch record. -/
theorem runOutcomesSummary : ∀ (outs : List Bool) (b : Batch),
    b.completed + b.failed + outs.length = b.total → outs ≠ [] →
    runOutcomes b outs =
      (none, [(b.completed + (outs.filter (fun o => o)).length,
               b.failed + (outs.filter (fun o => !o)).length, b.total)]) := by
  intro outs
  induction outs with
  | nil => intro b h hne; exact absurd rfl hne
  | cons o os ih =>
    intro b h _
    simp only [List.length_cons] at h
    cases os with
    | nil =>
      simp only [List.length_nil] at h
      cases o
      · have hr : recordOutcome b false =
            (none, some (b.completed, b.failed + 1, b.total)) := by
          simp [recordOutcome]
          omega
        rw [runOutcomes_cons_closed b false [] _ hr]
        simp
      · have hr : recordOutcome b true =
            (none, some (b.completed + 1, b.failed, b.total)) := by
          simp [recordOutcome]
          omega
        rw [runOutcomes_cons_closed b true [] _ hr]
        simp
    | cons o2 os2 =>
      simp only [List.length_cons] at h
      cases o
      · have hr : recordOutcome b false =
            (some { b with failed := b.failed + 1 }, none) := by
          simp [recordOutcome]
          omega
        rw [runOutcomes_cons_open b false (o2 :: os2) _ hr,
          ih { b with failed := b.failed + 1 } (by simp; omega) (List.cons_ne_nil _ _)]
        simp [List.filter_cons]
        all_goals omega
      · have hr : recordOutcome b true =
            (some { b with completed := b.completed + 1 }, none) := by
          simp [recordOutcome]
          omega
        rw [runOutcomes_cons_open b true (o2 :: os2) _ hr,
          ih { b with completed := b.completed + 1 } (by simp; omega) (List.cons_ne_nil _ _)]
        simp [List.filter_cons]
        all_goals omega

/-- Bridge: the batch bookkeeping of `process_link` is exactly
`recordOutcome` on the run's success flag; the summary is attempted when the
batch origin chat is valid and delivered when the send also succeeds. -/
theorem processLinkBatchBridge (s : BotState) (url : String) (rc : Int)
    (output : List String) (b : Batch) (chatValid sendOk : Bool) :
    (process_link s url rc output (some b) chatValid sendOk).batch =
      (recordOutcome b (tdlSuccess rc output)).1 ∧
    (process_link s url rc output (some b) chatValid sendOk).summaryAttempted =
      (if b.chatValid then (recordOutcome b (tdlSuccess rc output)).2 else none) ∧
    (process_link s url rc output (some b) chatValid sendOk).summaryDelivered =
      (if b.chatValid && sendOk then (recordOutcome b (tdlSuccess rc output)).2 else none) := by
  by_cases h : tdlSuccess rc output = true
  · simp [process_link, h]
  · have h2 : tdlSuccess rc output = false := by simpa using h
    simp [process_link, h2]

/-- State with one already-finished URL, for the concrete batch scenario. -/
def exBatchState : BotState := { initState with finishedFile := ["https://t.me/c/100/6"] }

/-- Three submitted URLs of which the second is already finished. -/
def exUrls : List String := ["https://t.me/c/100/5", "https://t.me/c/100/6", "https://t.me/c/100/7"]

/-- Claim C6: a surviving batch has `total` equal to the number of jobs
actually enqueued after dedup filtering and is never left open with zero
jobs; when completed plus failed reaches total, exactly one summary carrying
(completed, failed, total) is produced and the batch record is discarded; and
the batch bookkeeping performed by the worker is exactly `recordOutcome`. -/
theorem c6_thm :
    (∀ s cv urls bb, (handle_message s cv urls).batch = some bb →
        bb.total = (handle_message s cv urls).added ∧
        1 ≤ (handle_message s cv urls).added) ∧
    (∀ (outs : List Bool) (b : Batch),
        b.completed + b.failed + outs.length = b.total → outs ≠ [] →
        runOutcomes b outs =
          (none, [(b.completed + (outs.filter (fun o => o)).length,
                   b.failed + (outs.filter (fun o => !o)).length, b.total)])) ∧
    (∀ s url rc output (b : Batch) chatValid sendOk,
        (process_link s url rc output (some b) chatValid sendOk).batch =
          (recordOutcome b (tdlSuccess rc output)).1 ∧
        (process_link s url rc output (some b) chatValid sendOk).summaryAttempted =
          (if b.chatValid then (recordOutcome b (tdlSuccess rc output)).2 else none) ∧
        (process_link s url rc output (some b) chatValid sendOk).summaryDelivered =
          (if b.chatValid && sendOk then (recordOutcome b (tdlSuccess rc output)).2 else none)) :=
  ⟨handleMessageBatchTotal, runOutcomesSummary, processLinkBatchBridge⟩

/-- Witness for `c6_thm`: three URLs with one duplicate give a batch with
total 2; two successful completions yield exactly one summary (2, 0, 2). -/
theorem c6_wit :
    ((⟨true, 2, 0, 0⟩ : Batch).total = (handle_message exBatchState true exUrls).added ∧
     1 ≤ (handle_message exBatchState true exUrls).added) ∧
    runOutcomes ⟨true, 2, 0, 0⟩ [true, true] = (none, [(2, 0, 2)]) := by
  refine ⟨c6_thm.1 exBatchState true exUrls ⟨true, 2, 0, 0⟩ (by decide), ?_⟩
  have h := c6_thm.2.1 [true, true] ⟨true, 2, 0, 0⟩ (by decide) (by decide)
  simpa using h

/-- `startsL` is list-prefix decomposition. -/
theorem startsL_ex : ∀ (p l : List Char), startsL l p = true ↔ ∃ t, l = p ++ t := by
  intro p
  induction p with
  | nil =>
    intro l
    simp [startsL]
  | cons q ps ih =>
    intro l
    cases l with
    | nil => simp [startsL]
    | cons c cs =>
      simp only [startsL, Bool.and_eq_true, beq_iff_eq, ih cs]
      constructor
      · rintro ⟨rfl, t, rfl⟩
        exact ⟨t, rfl⟩
      · rintro ⟨t, ht⟩
        injection ht with h1 h2
        exact ⟨h1, t, h2⟩

/-- The part before the separator is an initial segment of the input. -/
theorem takeUntilSep_ex : ∀ l : List Char, ∃ t, l = takeUntilSep l ++ t := by
  intro l
  induction l with
  | nil => exact ⟨[], rfl⟩
  | cons c cs ih =>
    by_cases h : startsL (c :: cs) sepL = true
    · exact ⟨c :: cs, by simp [takeUntilSep, h]⟩
    · obtain ⟨t, ht⟩ := ih
      refine ⟨t, ?_⟩
      simp only [takeUntilSep, h, if_false]
      simpa using ht

/-- The part before the first separator contains no separator. -/
theorem containsL_take : ∀ l : List Char, containsL (takeUntilSep l) sepL = false := by
  intro l
  induction l with
  | nil => rfl
  | cons c cs ih =>
    by_cases h : startsL (c :: cs) sepL = true
    · have ht : takeUntilSep (c :: cs) = [] := by simp [takeUntilSep, h]
      rw [ht]
      decide
    · simp only [takeUntilSep, h, if_false]
      simp only [containsL, Bool.or_eq_false_iff]
      refine ⟨?_, ih⟩
      by_cases hs : startsL (c :: takeUntilSep cs) sepL = true
      · exfalso
        obtain ⟨u, hu⟩ := (startsL_ex sepL (c :: takeUntilSep cs)).mp hs
        obtain ⟨v, hv⟩ := takeUntilSep_ex cs
        have : c :: cs = sepL ++ (u ++ v) := by
          rw [hv]
          have : c :: (takeUntilSep cs ++ v) = (c :: takeUntilSep cs) ++ v := rfl
          rw [this, hu, List.append_assoc]
        exact h ((startsL_ex sepL (c :: cs)).mpr ⟨u ++ v, this⟩)
      · simpa using hs

/-- Splitting at the separator is the identity when no separator occurs. -/
theorem takeUntilSep_of_none : ∀ l : List Char, containsL l sepL = false → takeUntilSep l = l := by
  intro l
  induction l with
  | nil => intro _; rfl
  | cons c cs ih =>
    intro h
    simp only [containsL, Bool.or_eq_false_iff] at h
    simp [takeUntilSep, h.1, ih h.2]

/-- `startsL` is list-prefix decomposition. -/
theorem startsL_extend : ∀ (l p b : List Char), startsL l p = true → startsL (l ++ b) p = true := by
  intro l p b h
  obtain ⟨t, rfl⟩ := (startsL_ex p l).mp h
  exact (startsL_ex p _).mpr ⟨t ++ b, by simp⟩

/-- An occurrence survives appending on the right. -/
theorem containsL_extendR : ∀ (m p b : List Char), containsL m p = true → containsL (m ++ b) p = true := by
  intro m p b
  induction m with
  | nil =>
    intro h
    simp only [containsL, List.isEmpty_iff] at h
    subst h
    cases b with
    | nil => rfl
    | cons x xs => simp [containsL, startsL]
  | cons c cs ih =>
    intro h
    simp only [containsL, Bool.or_eq_true] at h ⊢
    rcases h with h | h
    · exact Or.inl (startsL_extend (c :: cs) p b h)
    · exact Or.inr (ih h)

/-- An occurrence survives appending on the left. -/
theorem containsL_extendL : ∀ (a m p : List Char), containsL m p = true → containsL (a ++ m) p = true := by
  intro a m p h
  induction a with
  | nil => simpa using h
  | cons x xs ih =>
    simp only [List.cons_append, containsL, Bool.or_eq_true]
    exact Or.inr ih

/-- No occurrence in a list means no occurrence in any middle segment. -/
theorem containsL_mid : ∀ (a m b p : List Char), containsL (a ++ m ++ b) p = false → containsL m p = false := by
  intro a m b p h
  by_cases hm : containsL m p = true
  · exfalso
    have h1 := containsL_extendR m p b hm
    have h2 := containsL_extendL a (m ++ b) p h1
    rw [← List.append_assoc] at h2
    rw [h2] at h
    exact absurd h (by simp)
  · simpa using hm

/-- Left strip removes an initial segment. -/
theorem stripL_ex (l : List Char) : ∃ a, l = a ++ stripL l :=
  ⟨l.takeWhile pySpace, (List.takeWhile_append_dropWhile pySpace l).symm⟩

/-- Right strip removes a final segment. -/
theorem stripR_ex (l : List Char) : ∃ w, l = stripR l ++ w := by
  refine ⟨(l.reverse.takeWhile pySpace).reverse, ?_⟩
  simp [stripR, ← List.reverse_append, List.takeWhile_append_dropWhile]

/-- Stripping removes an initial and a final segment. -/
theorem pyStrip_ex (l : List Char) : ∃ a w, l = a ++ pyStrip l ++ w := by
  obtain ⟨a, ha⟩ := stripL_ex l
  obtain ⟨w, hw⟩ := stripR_ex (stripL l)
  refine ⟨a, w, ?_⟩
  conv_lhs => rw [ha, hw]
  simp [pyStrip, List.append_assoc]

/-- `dropWhile` is idempotent. -/
theorem dropWhile_dw (p : Char → Bool) : ∀ l : List Char,
    List.dropWhile p (List.dropWhile p l) = List.dropWhile p l := by
  intro l
  induction l with
  | nil => rfl
  | cons c cs ih =>
    by_cases h : p c = true
    · simp [List.dropWhile, h, ih]
    · simp [List.dropWhile, h]

/-- The head surviving `dropWhile` fails the predicate. -/
theorem dropWhile_head_false (p : Char → Bool) : ∀ (l cs : List Char) (c : Char),
    List.dropWhile p l = c :: cs → p c = false := by
  intro l
  induction l with
  | nil => intro cs c h; exact absurd h (by simp)
  | cons x xs ih =>
    intro cs c h
    by_cases hx : p x = true
    · rw [List.dropWhile_cons_of_pos hx] at h
      exact ih cs c h
    · rw [List.dropWhile_cons_of_neg hx] at h
      injection h with h1 _
      subst h1
      simpa using hx

/-- Right strip is idempotent. -/
theorem stripR_idem (l : List Char) : stripR (stripR l) = stripR l := by
  simp [stripR, dropWhile_dw]

/-- A left-stripped list stays left-stripped after right-stripping. -/
theorem stripL_stripR (l : List Char) : stripL (stripR (stripL l)) = stripR (stripL l) := by
  rcases hm : stripL l with _ | ⟨c, cs⟩
  · simp [stripR, stripL]
  · have hc : pySpace c = false := dropWhile_head_false pySpace l cs c hm
    obtain ⟨w, hw⟩ := stripR_ex (c :: cs)
    rcases hr : stripR (c :: cs) with _ | ⟨d, ds⟩
    · simp [stripL]
    · rw [hr] at hw
      injection hw with h1 _
      subst h1
      have hc2 : ¬ pySpace c = true := by simp [hc]
      simp [stripL, List.dropWhile_cons_of_neg hc2]

/-- Python `strip` is idempotent. -/
theorem pyStrip_idem (l : List Char) : pyStrip (pyStrip l) = pyStrip l := by
  show stripR (stripL (stripR (stripL l))) = stripR (stripL l)
  rw [stripL_stripR, stripR_idem]

/-- Removing `?single` markers is the identity when no `?`/`&` occurs. -/
theorem removeSingleF_id : ∀ (fuel : Nat) (l : List Char),
    (∀ c ∈ l, isQA c = false) → removeSingleF fuel l = l := by
  intro fuel
  induction fuel with
  | zero => intro l _; rfl
  | succ f ih =>
    intro l h
    cases l with
    | nil => rfl
    | cons c cs =>
      have hc := h c (List.mem_cons_self c cs)
      have hq : (c == '?') = false := by
        simp only [isQA, Bool.or_eq_false_iff] at hc
        exact hc.1
      have hstart : startsL (c :: cs) singlePat = false := by
        simp [singlePat, startsL, hq]
      simp only [removeSingleF, hstart, Bool.false_eq_true, if_false]
      rw [ih cs (fun x hx => h x (List.mem_cons_of_mem c hx))]

/-- Collapsing `?`/`&` runs is the identity when no `?`/`&` occurs. -/
theorem collapseQAF_id : ∀ (fuel : Nat) (l : List Char),
    (∀ c ∈ l, isQA c = false) → collapseQAF fuel l = l := by
  intro fuel
  induction fuel with
  | zero => intro l _; rfl
  | succ f ih =>
    intro l h
    cases l with
    | nil => rfl
    | cons a t1 =>
      cases t1 with
      | nil => rfl
      | cons b t =>
        have ha : isQA a = false := h a (List.mem_cons_self a (b :: t))
        simp only [collapseQAF, ha, Bool.false_and, Bool.false_eq_true, if_false]
        rw [ih (b :: t) (fun x hx => h x (List.mem_cons_of_mem a hx))]

/-- Removing a trailing `?`/`&` is the identity when no `?`/`&` occurs. -/
theorem stripTrailQA_id (l : List Char) (h : ∀ c ∈ l, isQA c = false) :
    stripTrailQA l = l := by
  rcases hrev : l.reverse with _ | ⟨c, rest⟩
  · simp [stripTrailQA, hrev]
  · have hcl : c ∈ l := by
      have : c ∈ l.reverse := by rw [hrev]; exact List.mem_cons_self c rest
      simpa using this
    have hc : isQA c = false := h c hcl
    by_cases hnl : c = '\n'
    · subst hnl
      rcases rest with _ | ⟨d, rest2⟩
      · simp [stripTrailQA, hrev, hc]
      · have hdl : d ∈ l := by
          have : d ∈ l.reverse := by rw [hrev]; simp
          simpa using this
        have hd : isQA d = false := h d hdl
        simp [stripTrailQA, hrev, hc, hd]
    · simp [stripTrailQA, hrev, hc, hnl]

/-- Every character surviving split-and-strip comes from the input. -/
theorem noQA_strip_take (l : List Char) (h : ∀ c ∈ l, isQA c = false) :
    ∀ c ∈ pyStrip (takeUntilSep l), isQA c = false := by
  intro c hcmem
  obtain ⟨a, w, hw⟩ := pyStrip_ex (takeUntilSep l)
  obtain ⟨t, ht⟩ := takeUntilSep_ex l
  apply h
  rw [ht]
  have hc2 : c ∈ takeUntilSep l := by
    rw [hw]
    exact List.mem_append_left _ (List.mem_append_right _ hcmem)
  exact List.mem_append_left _ hc2

/-- On input free of `?` and `&`, `normalize_url` is split-at-separator
followed by strip. -/
theorem normalize_reduce (s : String) (hne : ¬ s = "")
    (h : ∀ c ∈ s.toList, isQA c = false) :
    normalize_url s = ⟨pyStrip (takeUntilSep s.toList)⟩ := by
  have hsub := noQA_strip_take s.toList h
  simp only [normalize_url, if_neg hne]
  rw [removeSingle, removeSingleF_id _ _ hsub, collapseQA, collapseQAF_id _ _ hsub,
    stripTrailQA_id _ hsub]

/-- Counterexample to claim C9 as stated: `normalize_url` is not idempotent.
On `a?&single` the `[?&]{2,}` collapse produces `a?single`, in which a second
pass finds a fresh `?single` marker and strips it down to `a`. -/
theorem c9_cex : normalize_url (normalize_url "a?&single") ≠ normalize_url "a?&single" := by
  decide

/-- Claim C9, amended: `normalize_url` is total (the embedding is a total
function, matching that the Python code raises on no string input) and
idempotent on every input that contains neither `?` nor `&`; by `c9_cex` it is
not idempotent on arbitrary strings. -/
theorem c9_thm (s : String) (h : ∀ c ∈ s.toList, isQA c = false) :
    normalize_url (normalize_url s) = normalize_url s := by
  by_cases hs : s = ""
  · subst hs
    rfl
  · rw [normalize_reduce s hs h]
    have hmem : ∀ c ∈ pyStrip (takeUntilSep s.toList), isQA c = false :=
      noQA_strip_take s.toList h
    by_cases hrnil : pyStrip (takeUntilSep s.toList) = []
    · rw [hrnil]
      rfl
    · have hne2 : ¬ (⟨pyStrip (takeUntilSep s.toList)⟩ : String) = "" := by
        intro hcon
        exact hrnil (by simpa using congrArg String.toList hcon)
      rw [normalize_reduce ⟨pyStrip (takeUntilSep s.toList)⟩ hne2 hmem]
      have hnosep : containsL (pyStrip (takeUntilSep s.toList)) sepL = false := by
        obtain ⟨a, w, hw⟩ := pyStrip_ex (takeUntilSep s.toList)
        exact containsL_mid a _ w sepL (by rw [← hw]; exact containsL_take s.toList)
      rw [show String.toList ⟨pyStrip (takeUntilSep s.toList)⟩ = pyStrip (takeUntilSep s.toList) from rfl]
      rw [takeUntilSep_of_none _ hnosep, pyStrip_idem]

/-- Witness for `c9_thm` on a concrete `?`/`&`-free input with whitespace and
a separator. -/
theorem c9_wit :
    normalize_url (normalize_url " https://t.me/c/1/2 - x ") =
      normalize_url " https://t.me/c/1/2 - x " :=
  c9_thm " https://t.me/c/1/2 - x " (by decide)
